import Mathlib

/-!
Shallow embedding of the fem-iot-workshop helper library
(`src/timeseries.py`, `src/utils.py`, `src/visualizations.py`).

Numeric values flowing through the p-value comparisons and the
percentage threshold are modelled as exact rationals (`ℚ`); the external
statistical routines (`statsmodels.adfuller`, `statsmodels.kpss`) are
modelled as function parameters producing a result record, exactly as the
Python code consumes them.  `print` calls are diagnostic only and are not
modelled.
-/

/-- Result tuple of the external ADF routine
`statsmodels.tsa.stattools.adfuller`:
`(adf_statistic, p_value, used_lag, n_obs, critical_values, icbest)`. -/
structure AdfResult where
  statistic : ℚ
  p_value : ℚ
  used_lag : ℤ
  n_obs : ℤ
  critical_values : List (String × ℚ)
  icbest : ℚ

/-- Result tuple of the external KPSS routine
`statsmodels.tsa.stattools.kpss`:
`(kpss_statistic, p_value, lags_used, critical_values)`. -/
structure KpssResult where
  statistic : ℚ
  p_value : ℚ
  lags_used : ℤ
  critical_values : List (String × ℚ)

/-- Embedding of `run_adfuller_test` (src/timeseries.py, lines 5-50).
The external routine `adfuller` is a parameter mapping the series and the
`autolag` strategy to an `AdfResult`.  The Python body reads
`p_value = result[1]` and returns `True` iff `p_value <= 0.05`. -/
def run_adfuller_test (adfuller : List ℚ → String → AdfResult)
    (timeseries : List ℚ) (auto_lag : String := "AIC") : Bool :=
  let result := adfuller timeseries auto_lag
  let p_value := result.p_value
  if p_value ≤ 0.05 then
    true
  else
    false

/-- Embedding of `run_kpss_test` (src/timeseries.py, lines 53-99).
The Python code builds a pandas Series `kpss_output` whose first three
positional entries are the statistic, the p-value and the lag count
(coerced to float), followed by one entry per critical value; it then
reads `p_value = kpss_output[1]` positionally and returns `False` iff
`p_value <= 0.05`. -/
def run_kpss_test (kpss : List ℚ → String → KpssResult)
    (timeseries : List ℚ) (regression : String := "c") : Bool :=
  let kpss_test := kpss timeseries regression
  let kpss_output : List (String × ℚ) :=
    [("Test Statistic", kpss_test.statistic),
     ("p-value", kpss_test.p_value),
     ("Lags Used", (kpss_test.lags_used : ℚ))] ++
      kpss_test.critical_values.map (fun kv => ("Critical Value " ++ kv.1, kv.2))
  let p_value := (kpss_output.getD 1 ("", 0)).2
  if p_value ≤ 0.05 then
    false
  else
    true

/-- Concrete ADF result sitting exactly at the significance boundary. -/
def adfAtBoundary : AdfResult :=
  ⟨-3, 0.05, 2, 98, [("1%", -4), ("5%", -3)], 120⟩

/-- Concrete ADF result strictly above the significance boundary. -/
def adfAboveBoundary : AdfResult :=
  ⟨-1, 0.3, 2, 98, [("1%", -4), ("5%", -3)], 120⟩

/-- Concrete KPSS result sitting exactly at the significance boundary. -/
def kpssAtBoundary : KpssResult :=
  ⟨1, 0.05, 3, [("1%", 1/2), ("5%", 1/4)]⟩

/-- Concrete KPSS result strictly above the significance boundary. -/
def kpssAboveBoundary : KpssResult :=
  ⟨0, 0.3, 3, [("1%", 1/2), ("5%", 1/4)]⟩

/-- C1: whenever the external ADF routine reports `p_value ≤ 0.05` the
verdict of `run_adfuller_test` is `true` (stationary); whenever it reports
`p_value > 0.05` the verdict is `false` (non-stationary); at the boundary
`p_value = 0.05` the verdict is `true`. -/
theorem run_adfuller_test_verdict
    (adfuller : List ℚ → String → AdfResult) (ts : List ℚ) (al : String) :
    ((adfuller ts al).p_value ≤ 0.05 → run_adfuller_test adfuller ts al = true) ∧
    (0.05 < (adfuller ts al).p_value → run_adfuller_test adfuller ts al = false) ∧
    ((adfuller ts al).p_value = 0.05 → run_adfuller_test adfuller ts al = true) := by
  refine ⟨fun h => ?_, fun h => ?_, fun h => ?_⟩
  · simp [run_adfuller_test, h]
  · simp [run_adfuller_test, not_le.mpr h]
  · simp [run_adfuller_test, le_of_eq h]

/-- Closed instance of `run_adfuller_test_verdict` at the boundary and
above it. -/
theorem run_adfuller_test_verdict_witness :
    run_adfuller_test (fun _ _ => adfAtBoundary) [] "AIC" = true ∧
    run_adfuller_test (fun _ _ => adfAboveBoundary) [] "AIC" = false :=
  ⟨(run_adfuller_test_verdict (fun _ _ => adfAtBoundary) [] "AIC").1 (by norm_num [adfAtBoundary]),
   (run_adfuller_test_verdict (fun _ _ => adfAboveBoundary) [] "AIC").2.1
     (by norm_num [adfAboveBoundary])⟩

/-- C2: whenever the external KPSS routine reports `p_value ≤ 0.05` the
verdict of `run_kpss_test` is `false` (non-stationary); whenever it
reports `p_value > 0.05` the verdict is `true` (stationary); at the
boundary `p_value = 0.05` the verdict is `false` — the mirror polarity of
the ADF verdict. -/
theorem run_kpss_test_verdict
    (kpss : List ℚ → String → KpssResult) (ts : List ℚ) (reg : String) :
    ((kpss ts reg).p_value ≤ 0.05 → run_kpss_test kpss ts reg = false) ∧
    (0.05 < (kpss ts reg).p_value → run_kpss_test kpss ts reg = true) ∧
    ((kpss ts reg).p_value = 0.05 → run_kpss_test kpss ts reg = false) := by
  refine ⟨fun h => ?_, fun h => ?_, fun h => ?_⟩
  · simp [run_kpss_test, h]
  · simp [run_kpss_test, not_le.mpr h]
  · simp [run_kpss_test, le_of_eq h]

/-- Closed instance of `run_kpss_test_verdict` at the boundary and above
it. -/
theorem run_kpss_test_verdict_witness :
    run_kpss_test (fun _ _ => kpssAtBoundary) [] "c" = false ∧
    run_kpss_test (fun _ _ => kpssAboveBoundary) [] "c" = true :=
  ⟨(run_kpss_test_verdict (fun _ _ => kpssAtBoundary) [] "c").1 (by norm_num [kpssAtBoundary]),
   (run_kpss_test_verdict (fun _ _ => kpssAboveBoundary) [] "c").2.1
     (by norm_num [kpssAboveBoundary])⟩

/-- C4: the verdicts depend only on the `p_value` field of the external
test result: two ADF results with equal p-value but arbitrary statistic,
lag counts and critical values yield the same `run_adfuller_test`
verdict, and likewise for `run_kpss_test`. -/
theorem verdicts_depend_only_on_p_value
    (r₁ r₂ : AdfResult) (s₁ s₂ : KpssResult)
    (ts₁ ts₂ ts₃ ts₄ : List ℚ) (al₁ al₂ reg₁ reg₂ : String)
    (hadf : r₁.p_value = r₂.p_value) (hkpss : s₁.p_value = s₂.p_value) :
    run_adfuller_test (fun _ _ => r₁) ts₁ al₁ =
      run_adfuller_test (fun _ _ => r₂) ts₂ al₂ ∧
    run_kpss_test (fun _ _ => s₁) ts₃ reg₁ =
      run_kpss_test (fun _ _ => s₂) ts₄ reg₂ := by
  constructor
  · simp [run_adfuller_test, hadf]
  · simp [run_kpss_test, hkpss]

/-- Closed instance of `verdicts_depend_only_on_p_value`: results with
equal p-values but different statistics, lags and critical values. -/
theorem verdicts_depend_only_on_p_value_witness :
    run_adfuller_test (fun _ _ => (⟨-3, 0.04, 2, 98, [("1%", -4)], 120⟩ : AdfResult)) [] "AIC" =
      run_adfuller_test (fun _ _ => (⟨7, 0.04, 9, 11, [], 0⟩ : AdfResult)) [1] "BIC" ∧
    run_kpss_test (fun _ _ => (⟨1, 0.04, 3, [("1%", 1/2)]⟩ : KpssResult)) [] "c" =
      run_kpss_test (fun _ _ => (⟨5, 0.04, 8, []⟩ : KpssResult)) [1] "ct" :=
  verdicts_depend_only_on_p_value
    ⟨-3, 0.04, 2, 98, [("1%", -4)], 120⟩ ⟨7, 0.04, 9, 11, [], 0⟩
    ⟨1, 0.04, 3, [("1%", 1/2)]⟩ ⟨5, 0.04, 8, []⟩
    [] [1] [] [1] "AIC" "BIC" "c" "ct" rfl rfl

/-!
Embedding of the dataframe-consuming plot helpers
(`src/visualizations.py`).  A dataframe is a list of named columns; the
in-place column assignments `df['lat'] = ...` of the Python code are
modelled by threading the frame through `setCol`, and the function
returns the caller-visible frame after the call.  A pandas `KeyError`
for a missing column is an `Except.error` carrying the missing column's
name.
-/

/-- Dataframe: named columns of string-valued cells. -/
abbrev DFrame := List (String × List String)

/-- Column names of a dataframe, in order. -/
def colNames (df : DFrame) : List String := df.map Prod.fst

/-- Column access `df[name]`; raises `KeyError(name)` when absent. -/
def getCol : DFrame → String → Except String (List String)
  | [], n => .error n
  | c :: df, n => if c.1 == n then .ok c.2 else getCol df n

/-- Column assignment `df[name] = values`: overwrite the existing column
or append a new one at the end, as pandas does. -/
def setCol : DFrame → String → List String → DFrame
  | [], n, v => [(n, v)]
  | c :: df, n, v => if c.1 == n then (c.1, v) :: df else c :: setCol df n v

/-- Helper for `.str.split(',')`: split a character list at commas,
accumulating the current field. -/
def splitCommaAux : List Char → List Char → List (List Char)
  | [], acc => [acc.reverse]
  | c :: cs, acc =>
      if c = ',' then acc.reverse :: splitCommaAux cs [] else splitCommaAux cs (c :: acc)

/-- Model of the pandas `.str.split(',').str[i]` access used for the
`lat`/`lon` columns: the `i`-th comma-separated field of the cell (empty
when the field does not exist, standing for pandas `NaN`). -/
def splitField (s : String) (i : Nat) : String :=
  ((splitCommaAux s.data []).getD i []).asString

/-- The `try df['id'] except KeyError: df['measuring_point_id']` column
fallback of `plot_measuring_points`: `df['id']`, or
`df['measuring_point_id']` when `id` is absent. -/
def point_ids (df : DFrame) : Except String (List String) :=
  match getCol df "id" with
  | .ok ids => pure ids
  | .error _ => getCol df "measuring_point_id"

/-- Embedding of `plot_measuring_points` (src/visualizations.py, lines
62-97).  The function assigns `lat`, `lon` and `text` columns on the
caller's frame in place; the returned frame is the caller-visible state
of `df` after the call.  The `try/except KeyError` fallback is
`point_ids`; the rendering calls (`px.scatter_mapbox`, `fig.show`) are
external and produce no value consumed here. -/
def plot_measuring_points (df : DFrame)
    (coordinates_column : String := "coordinates") : Except String DFrame :=
  match getCol df coordinates_column with
  | .error e => .error e
  | .ok coords =>
    let df := setCol df "lat" (coords.map (fun s => splitField s 0))
    let df := setCol df "lon" (coords.map (fun s => splitField s 1))
    match point_ids df with
    | .error e => .error e
    | .ok measuring_point_ids =>
      match getCol df "description" with
      | .error e => .error e
      | .ok description =>
        .ok (setCol df "text"
          (List.zipWith (fun a b => a ++ " : " ++ b) measuring_point_ids description))

/-- A missing column raises `KeyError` carrying exactly its name. -/
theorem getCol_eq_error_of_not_mem (df : DFrame) (n : String)
    (h : n ∉ colNames df) : getCol df n = .error n := by
  induction df with
  | nil => rfl
  | cons c df ih =>
    have hne : ¬(c.1 == n) = true := by
      simp only [beq_iff_eq]
      intro he
      exact h (he ▸ List.mem_cons_self c.1 (colNames df))
    have h' : n ∉ colNames df := fun hm => h (List.mem_cons_of_mem _ hm)
    simp [getCol, hne, ih h']

/-- A present column is retrieved without error. -/
theorem getCol_isOk_of_mem (df : DFrame) (n : String)
    (h : n ∈ colNames df) : ∃ v, getCol df n = .ok v := by
  induction df with
  | nil => exact absurd h (List.not_mem_nil n)
  | cons c df ih =>
    by_cases he : c.1 = n
    · exact ⟨c.2, by simp [getCol, he]⟩
    · have h' : n ∈ colNames df := by
        rcases List.mem_cons.mp h with h1 | h1
        · exact absurd h1.symm he
        · exact h1
      rcases ih h' with ⟨v, hv⟩
      exact ⟨v, by simp [getCol, he, hv]⟩

/-- Columns after `df[name] = values`: the old columns plus `name`. -/
theorem mem_colNames_setCol (df : DFrame) (n m : String) (v : List String) :
    m ∈ colNames (setCol df n v) ↔ m ∈ colNames df ∨ m = n := by
  induction df with
  | nil =>
    simp only [setCol, colNames, List.map_cons, List.map_nil, List.mem_singleton,
      List.not_mem_nil, false_or]
  | cons c df ih =>
    by_cases he : c.1 = n
    · subst he
      simp only [setCol, beq_self_eq_true, if_true, colNames, List.map_cons, List.mem_cons]
      tauto
    · simp only [setCol, beq_iff_eq, he, if_false, colNames, List.map_cons, List.mem_cons]
      rw [show (m ∈ List.map Prod.fst (setCol df n v)) = (m ∈ colNames (setCol df n v)) from rfl,
        ih]
      tauto

/-- Assigning one column leaves every other column's value unchanged. -/
theorem getCol_setCol_ne (df : DFrame) (n m : String) (v : List String)
    (h : m ≠ n) : getCol (setCol df n v) m = getCol df m := by
  induction df with
  | nil =>
    have hnm : ¬(n = m) := fun he => h he.symm
    simp [setCol, getCol, hnm]
  | cons c df ih =>
    by_cases he : c.1 = n
    · have hm : ¬(c.1 = m) := fun hcm => h (hcm.symm.trans he)
      simp [setCol, getCol, he, hm, Ne.symm h]
    · by_cases hcm : c.1 = m
      · simp [setCol, getCol, he, hcm, h]
      · simp [setCol, getCol, he, hcm, ih]

/-- C7: on a frame with neither an `id` nor a `measuring_point_id`
column, `plot_measuring_points` fails with a `KeyError` naming a column
that is indeed missing from the frame (it never proceeds to build the
hover label); when `id` is absent but `measuring_point_id` is present,
the fallback lookup resolves to the `measuring_point_id` column. -/
theorem plot_measuring_points_identifier_fallback (df : DFrame)
    (hid : "id" ∉ colNames df) :
    ("measuring_point_id" ∉ colNames df →
      ∃ c, plot_measuring_points df = Except.error c ∧ c ∉ colNames df) ∧
    ("measuring_point_id" ∈ colNames df →
      point_ids df = getCol df "measuring_point_id") := by
  constructor
  · intro hmp
    by_cases hc : "coordinates" ∈ colNames df
    · rcases getCol_isOk_of_mem df _ hc with ⟨v, hv⟩
      refine ⟨"measuring_point_id", ?_, hmp⟩
      have hmem2 : ∀ s : String, s ∉ colNames df → s ≠ "lat" → s ≠ "lon" →
          s ∉ colNames (setCol (setCol df "lat" (v.map (fun s => splitField s 0)))
            "lon" (v.map (fun s => splitField s 1))) := by
        intro s hs hlat hlon hmem
        rcases (mem_colNames_setCol _ _ _ _).mp hmem with h1 | h1
        · rcases (mem_colNames_setCol _ _ _ _).mp h1 with h2 | h2
          · exact hs h2
          · exact hlat h2
        · exact hlon h1
      have hpi : point_ids (setCol (setCol df "lat" (v.map (fun s => splitField s 0)))
          "lon" (v.map (fun s => splitField s 1))) = .error "measuring_point_id" := by
        unfold point_ids
        rw [getCol_eq_error_of_not_mem _ _ (hmem2 "id" hid (by decide) (by decide))]
        exact getCol_eq_error_of_not_mem _ _ (hmem2 "measuring_point_id" hmp (by decide) (by decide))
      simp [plot_measuring_points, hv, hpi]
    · refine ⟨"coordinates", ?_, hc⟩
      simp [plot_measuring_points, getCol_eq_error_of_not_mem df _ hc]
  · intro hmp
    simp [point_ids, getCol_eq_error_of_not_mem df _ hid]

/-- Closed instance of `plot_measuring_points_identifier_fallback`: a
frame with only a `coordinates` column fails naming a missing column,
and a frame with a `measuring_point_id` column resolves the identifier
from it. -/
theorem plot_measuring_points_identifier_fallback_witness :
    (∃ c, plot_measuring_points [("coordinates", ["1.5,2.5"])] = Except.error c ∧
      c ∉ colNames [("coordinates", ["1.5,2.5"])]) ∧
    point_ids [("measuring_point_id", ["m1"])] =
      getCol [("measuring_point_id", ["m1"])] "measuring_point_id" :=
  ⟨(plot_measuring_points_identifier_fallback [("coordinates", ["1.5,2.5"])]
      (by decide)).1 (by decide),
   (plot_measuring_points_identifier_fallback [("measuring_point_id", ["m1"])]
      (by decide)).2 (by decide)⟩

/-- C8 (amended): `plot_measuring_points` changes the caller's frame
only at the `lat`, `lon` and `text` columns it assigns; every other
column reads back unchanged after the call.  (The threshold grouper and
the stationarity verdicts take their tabular input by value and return
fresh results.) -/
theorem plot_measuring_points_frame (df df' : DFrame) (cc : String)
    (h : plot_measuring_points df cc = Except.ok df') :
    ∀ c, c ≠ "lat" → c ≠ "lon" → c ≠ "text" → getCol df' c = getCol df c := by
  intro c hlat hlon htext
  rcases hv : getCol df cc with e | v
  · rw [plot_measuring_points, hv] at h
    simp at h
  · rw [plot_measuring_points, hv] at h
    rcases hm : point_ids (setCol (setCol df "lat" (v.map (fun s => splitField s 0)))
        "lon" (v.map (fun s => splitField s 1))) with e | mids
    · simp only [hm] at h
      exact absurd h (fun hcl => Except.noConfusion hcl)
    · simp only [hm] at h
      rcases hd : getCol (setCol (setCol df "lat" (v.map (fun s => splitField s 0)))
          "lon" (v.map (fun s => splitField s 1))) "description" with e | desc
      · simp only [hd] at h
        exact absurd h (fun hcl => Except.noConfusion hcl)
      · simp only [hd, Except.ok.injEq] at h
        subst h
        rw [getCol_setCol_ne _ _ _ _ htext, getCol_setCol_ne _ _ _ _ hlon,
          getCol_setCol_ne _ _ _ _ hlat]

/-- Closed instance of `plot_measuring_points_frame`: the `id` column of
a concrete frame reads back unchanged after the call. -/
theorem plot_measuring_points_frame_witness :
    getCol [("coordinates", ["1.5,2.5"]), ("id", ["p1"]), ("description", ["d"]),
      ("lat", ["1.5"]), ("lon", ["2.5"]), ("text", ["p1 : d"])] "id" =
    getCol [("coordinates", ["1.5,2.5"]), ("id", ["p1"]), ("description", ["d"])] "id" :=
  plot_measuring_points_frame
    [("coordinates", ["1.5,2.5"]), ("id", ["p1"]), ("description", ["d"])]
    [("coordinates", ["1.5,2.5"]), ("id", ["p1"]), ("description", ["d"]),
      ("lat", ["1.5"]), ("lon", ["2.5"]), ("text", ["p1 : d"])]
    "coordinates" rfl "id" (by decide) (by decide) (by decide)

/-- C8 counterexample: `plot_measuring_points` is not pure with respect
to its tabular input — on a concrete frame the caller-visible table
after the call has gained `lat`, `lon` and `text` columns and differs
from the table passed in. -/
theorem plot_measuring_points_not_pure :
    plot_measuring_points
        [("coordinates", ["1.5,2.5"]), ("id", ["p1"]), ("description", ["d"])] =
      Except.ok [("coordinates", ["1.5,2.5"]), ("id", ["p1"]), ("description", ["d"]),
        ("lat", ["1.5"]), ("lon", ["2.5"]), ("text", ["p1 : d"])] ∧
    ([("coordinates", ["1.5,2.5"]), ("id", ["p1"]), ("description", ["d"])] : DFrame) ≠
      [("coordinates", ["1.5,2.5"]), ("id", ["p1"]), ("description", ["d"]),
        ("lat", ["1.5"]), ("lon", ["2.5"]), ("text", ["p1 : d"])] :=
  ⟨rfl, by decide⟩

/-!
Embedding of `create_pie_chart_with_grouped_threshold` (src/utils.py,
lines 4-52, and the identical copy in src/visualizations.py, lines
11-59).  The input is the frame's category column, an entry per row
(`none` for a missing value, which `groupby` drops).  The drawing
arguments (`ax`, title, labels, font size, start angle) only affect the
external renderer; the locally computed value is either the summary
handed to the pie renderer or the `ax.remove()` signal for an empty
grouping.
-/

/-- Ascending ordering of group keys, as `pandas.groupby` (with its
default `sort=True`) orders the resulting groups.  The comparison is the
lexicographic order on the underlying character lists, which is the
string order itself (`String.le_iff_toList_le`). -/
def sortKeys (keys : List String) : List String :=
  List.insertionSort (fun a b => a.data ≤ b.data) keys

/-- The `input_df.groupby(column_name).size()` step: one row per
distinct category value, keys ascending, with its number of
occurrences; rows whose category is missing were dropped beforehand. -/
def groupbySize (xs : List String) : List (String × Nat) :=
  (sortKeys xs.dedup).map (fun k => (k, xs.count k))

/-- The label-cleaning step: `grouped_df.loc[perc < threshold,
'label_cleaned'] = grouped_label` followed by `fillna` with the original
category — a category keeps its own label unless its fraction of the
total is strictly below the threshold. -/
def labelRow (threshold : ℚ) (grouped_label : String) (total : ℚ)
    (row : String × Nat) : String × Nat :=
  (if (row.2 : ℚ) / total < threshold then grouped_label else row.1, row.2)

/-- The `groupby('label_cleaned').sizes.sum()` step: one row per
distinct final label, keys ascending, summing the sizes that carry the
label. -/
def groupbySum (pairs : List (String × Nat)) : List (String × Nat) :=
  (sortKeys (pairs.map Prod.fst).dedup).map
    (fun k => (k, ((pairs.filter (fun p => p.1 == k)).map Prod.snd).sum))

/-- Ordering of summary rows by group size, for `.sort_values()`. -/
def sizeLE (a b : String × Nat) : Prop := a.2 ≤ b.2

instance : DecidableRel sizeLE := fun a b => inferInstanceAs (Decidable (a.2 ≤ b.2))

instance : IsTotal (String × Nat) sizeLE := ⟨fun a b => Nat.le_total a.2 b.2⟩

instance : IsTrans (String × Nat) sizeLE := ⟨fun _ _ _ => Nat.le_trans⟩

/-- The `.sort_values()` step: summary rows ascending by size. -/
def sortBySize (pairs : List (String × Nat)) : List (String × Nat) :=
  List.insertionSort sizeLE pairs

/-- Outcome of the pie-chart helper: either a summary handed to the
renderer, or the removal of the axis when there is nothing to render. -/
inductive PieResult
  | rendered (groups : List (String × Nat))
  | axisRemoved
deriving DecidableEq

/-- Embedding of `create_pie_chart_with_grouped_threshold`.  The Python
code renders (`if not grouped_df.empty`) or removes the axis (`else`);
the two branches appear here in the opposite order with the condition
negated accordingly. -/
def create_pie_chart_with_grouped_threshold (column : List (Option String))
    (threshold : ℚ := 0.01) (grouped_label : String := "Others") : PieResult :=
  let grouped_df := groupbySize (column.filterMap id)
  if grouped_df.isEmpty then
    PieResult.axisRemoved
  else
    let total : ℚ := ((grouped_df.map Prod.snd).sum : ℕ)
    PieResult.rendered
      (sortBySize (groupbySum (grouped_df.map (labelRow threshold grouped_label total))))

/-- C6: on a table with zero rows the grouper aggregates nothing and
removes the plot target; the branch is a normal return of the
`axisRemoved` signal, not an exception (the embedding is total). -/
theorem create_pie_empty_table (threshold : ℚ) (grouped_label : String) :
    create_pie_chart_with_grouped_threshold [] threshold grouped_label =
      PieResult.axisRemoved := rfl

/-- C10: on a non-empty table whose category column holds only missing
values, `groupby` drops every row, the grouped frame is empty, and the
function removes the plot target — the branch is decided by the grouped
result being empty, not by the input table being empty. -/
theorem create_pie_all_missing (column : List (Option String))
    (threshold : ℚ) (grouped_label : String)
    (_hrows : column ≠ []) (hmiss : ∀ x ∈ column, x = none) :
    create_pie_chart_with_grouped_threshold column threshold grouped_label =
      PieResult.axisRemoved := by
  have hv : column.filterMap id = [] :=
    List.filterMap_eq_nil_iff.mpr (fun a ha => hmiss a ha)
  simp [create_pie_chart_with_grouped_threshold, hv, groupbySize, sortKeys]

/-- Closed instance of `create_pie_all_missing` on a two-row table of
missing categories. -/
theorem create_pie_all_missing_witness :
    create_pie_chart_with_grouped_threshold [none, none] 0.01 "Others" =
      PieResult.axisRemoved :=
  create_pie_all_missing [none, none] 0.01 "Others" (by decide) (by decide)

/-- Concrete input table of the specification scenario: a category
column with 50 rows of `A`, 45 of `B`, 3 of `C` and 2 of `D`. -/
def pieInput : List (Option String) :=
  List.replicate 50 (some "A") ++ List.replicate 45 (some "B") ++
    List.replicate 3 (some "C") ++ List.replicate 2 (some "D")

set_option maxRecDepth 10000 in
/-- C3: the grouper relabels exactly the categories whose fraction is
strictly below the threshold, re-aggregates by final label summing
sizes, and renders the groups ascending by size; on the concrete
scenario `{A: 50, B: 45, C: 3, D: 2}` with threshold `0.05` and label
`Others`, the output groups are `Others: 5`, `B: 45`, `A: 50` in that
ascending order. -/
theorem create_pie_threshold_grouping :
    (∀ (column : List (Option String)) (threshold : ℚ) (grouped_label : String)
        (rows : List (String × Nat)),
      create_pie_chart_with_grouped_threshold column threshold grouped_label =
        PieResult.rendered rows → List.Sorted sizeLE rows) ∧
    create_pie_chart_with_grouped_threshold pieInput 0.05 "Others" =
      PieResult.rendered [("Others", 5), ("B", 45), ("A", 50)] := by
  constructor
  · intro column threshold grouped_label rows h
    rw [create_pie_chart_with_grouped_threshold] at h
    split at h
    · exact absurd h (fun hcl => PieResult.noConfusion hcl)
    · injection h with h'
      rw [← h']
      exact List.sorted_insertionSort sizeLE _
  · have h1 : groupbySize (pieInput.filterMap id) =
        [("A", 50), ("B", 45), ("C", 3), ("D", 2)] := by decide
    have h2 : sortBySize (groupbySum [("A", 50), ("B", 45), ("Others", 3), ("Others", 2)]) =
        [("Others", 5), ("B", 45), ("A", 50)] := by decide
    simp only [create_pie_chart_with_grouped_threshold, h1, List.isEmpty_cons,
      List.map_cons, List.map_nil, List.sum_cons, List.sum_nil, if_false]
    norm_num [labelRow]
    rw [h2]

/-!
Embedding of the mask computation of `plot_correlation_heat_map`
(src/visualizations.py, line 117):
`mask = np.triu(np.ones_like(input_df.corr(), dtype=np.bool))`, where
`np.bool` is the builtin boolean type.  A NumPy array is modelled with
its element dtype made explicit; `np.triu` preserves the dtype of its
argument and `np.ones_like` takes the requested dtype.
-/

/-- Element dtype of a NumPy array: boolean mask entries versus the
numeric float entries of a correlation matrix. -/
inductive NpDtype
  | bool
  | float64
deriving DecidableEq

/-- Square NumPy array: dimension, element dtype and entries (boolean
entries represented as 0/1). -/
structure NpMatrix where
  dim : Nat
  dtype : NpDtype
  entry : Nat → Nat → ℚ

/-- `np.ones_like(m, dtype=d)`: all-ones array of `m`'s shape with the
requested dtype. -/
def ones_like (m : NpMatrix) (dtype : NpDtype) : NpMatrix :=
  ⟨m.dim, dtype, fun _ _ => 1⟩

/-- `np.triu(m)`: keep the entries on and above the main diagonal, zero
the rest; the dtype is preserved. -/
def np_triu (m : NpMatrix) : NpMatrix :=
  ⟨m.dim, m.dtype, fun i j => if i ≤ j then m.entry i j else 0⟩

/-- The mask expression of `plot_correlation_heat_map`, applied to the
correlation matrix `input_df.corr()` produced by the external library. -/
def plot_correlation_heat_map_mask (corr : NpMatrix) : NpMatrix :=
  np_triu (ones_like corr NpDtype.bool)

/-- C9: for every correlation matrix, the heat-map mask has boolean (not
numeric) element dtype, has the matrix's shape, and is upper-triangular:
true on and above the diagonal, false strictly below it. -/
theorem plot_correlation_heat_map_mask_boolean (corr : NpMatrix) :
    (plot_correlation_heat_map_mask corr).dtype = NpDtype.bool ∧
    (plot_correlation_heat_map_mask corr).dim = corr.dim ∧
    ∀ i j, (plot_correlation_heat_map_mask corr).entry i j =
      if i ≤ j then 1 else 0 :=
  ⟨rfl, rfl, fun _ _ => rfl⟩

/-!
List lemmas for the pie-chart invariants: a sum partitioned by a
predicate, and the sum of per-key fiber sums over a covering list of
distinct keys.
-/

/-- Splitting a mapped sum by a predicate. -/
theorem sum_map_filter_add {α : Type} (f : α → ℕ) (p : α → Bool) (l : List α) :
    ((l.filter p).map f).sum + ((l.filter fun a => !p a).map f).sum = (l.map f).sum := by
  induction l with
  | nil => rfl
  | cons a l ih =>
    cases hpa : p a <;>
      simp [List.filter_cons, hpa, ← ih] <;> omega

/-- Summing the per-key fiber sums over a duplicate-free list of keys
covering every element recovers the total sum. -/
theorem sum_fibers {α : Type} (key : α → String) (val : α → ℕ) :
    ∀ (keys : List String) (l : List α), keys.Nodup → (∀ a ∈ l, key a ∈ keys) →
      (keys.map fun k => ((l.filter fun a => key a == k).map val).sum).sum
        = (l.map val).sum := by
  intro keys
  induction keys with
  | nil =>
    intro l _ hcov
    have hl : l = [] := by
      cases l with
      | nil => rfl
      | cons a t => exact absurd (hcov a (List.mem_cons_self a t)) (List.not_mem_nil _)
    subst hl
    rfl
  | cons k ks ih =>
    intro l hnd hcov
    rcases List.nodup_cons.mp hnd with ⟨hk, hnd'⟩
    have hrest : ∀ a ∈ l.filter (fun a => !(key a == k)), key a ∈ ks := by
      intro a ha
      rcases List.mem_filter.mp ha with ⟨hal, hbk⟩
      have hne : key a ≠ k := by simpa using hbk
      rcases List.mem_cons.mp (hcov a hal) with h1 | h1
      · exact absurd h1 hne
      · exact h1
    have hfib : ∀ k' ∈ ks,
        (l.filter fun a => key a == k') =
          ((l.filter fun a => !(key a == k)).filter fun a => key a == k') := by
      intro k' hk'
      rw [List.filter_filter]
      apply List.filter_congr
      intro a _
      by_cases hak : key a = k'
      · have hne : k' ≠ k := fun h => hk (h ▸ hk')
        simp [hak, hne]
      · simp [hak]
    have hrw : (ks.map fun k' => ((l.filter fun a => key a == k').map val).sum)
        = ks.map fun k' =>
            (((l.filter fun a => !(key a == k)).filter fun a => key a == k').map val).sum := by
      apply List.map_congr_left
      intro k' hk'
      rw [hfib k' hk']
    simp only [List.map_cons, List.sum_cons]
    rw [hrw, ih (l.filter fun a => !(key a == k)) hnd' hrest]
    exact sum_map_filter_add val (fun a => key a == k) l

/-- A count is the sum of ones over the matching elements. -/
theorem count_eq_filter_sum (xs : List String) (k : String) :
    xs.count k = ((xs.filter fun x => x == k).map fun _ => (1 : ℕ)).sum := by
  induction xs with
  | nil => rfl
  | cons a t ih =>
    by_cases h : a = k
    · simp [List.count_cons, List.filter_cons, h, ih]
      omega
    · simp [List.count_cons, List.filter_cons, h, ih]

/-- Mapping to ones and summing counts the elements. -/
theorem sum_map_one {α : Type} (l : List α) : (l.map fun _ => (1 : ℕ)).sum = l.length := by
  induction l with
  | nil => rfl
  | cons a t ih => simp [ih]; omega

/-- `sortKeys` permutes its input. -/
theorem sortKeys_perm (keys : List String) : List.Perm (sortKeys keys) keys :=
  List.perm_insertionSort _ keys

/-- The sorted, deduplicated key list is duplicate-free. -/
theorem nodup_sortKeys_dedup (xs : List String) : (sortKeys xs.dedup).Nodup :=
  ((sortKeys_perm xs.dedup).nodup_iff).mpr xs.nodup_dedup

/-- Membership in the sorted, deduplicated key list. -/
theorem mem_sortKeys_dedup {x : String} {xs : List String} :
    x ∈ sortKeys xs.dedup ↔ x ∈ xs := by
  rw [(sortKeys_perm xs.dedup).mem_iff, List.mem_dedup]

/-- The sizes of `groupbySize` add up to the number of grouped rows. -/
theorem sum_groupbySize (xs : List String) :
    ((groupbySize xs).map Prod.snd).sum = xs.length := by
  unfold groupbySize
  rw [List.map_map]
  have h1 : ((sortKeys xs.dedup).map (Prod.snd ∘ fun k => (k, xs.count k)))
      = (sortKeys xs.dedup).map (fun k => ((xs.filter fun x => x == k).map fun _ => (1 : ℕ)).sum) :=
    List.map_congr_left (fun k _ => count_eq_filter_sum xs k)
  have h2 := sum_fibers id (fun _ => (1 : ℕ)) (sortKeys xs.dedup) xs
    (nodup_sortKeys_dedup xs) (fun a ha => mem_sortKeys_dedup.mpr ha)
  rw [h1]
  exact h2.trans (sum_map_one xs)

/-- `groupbySize` yields no groups exactly on an empty row list. -/
theorem groupbySize_eq_nil_iff (xs : List String) : groupbySize xs = [] ↔ xs = [] := by
  unfold groupbySize
  rw [List.map_eq_nil_iff]
  constructor
  · intro h
    have hd : xs.dedup = [] := by
      have hp := sortKeys_perm xs.dedup
      rw [h] at hp
      exact (hp.symm.eq_nil)
    exact (List.dedup_eq_nil xs).mp hd
  · intro h
    subst h
    rfl

/-- `groupbySum` preserves the total of the sizes. -/
theorem sum_groupbySum (pairs : List (String × Nat)) :
    ((groupbySum pairs).map Prod.snd).sum = (pairs.map Prod.snd).sum := by
  unfold groupbySum
  rw [List.map_map]
  exact sum_fibers Prod.fst Prod.snd (sortKeys (pairs.map Prod.fst).dedup) pairs
    (nodup_sortKeys_dedup _)
    (fun a ha => mem_sortKeys_dedup.mpr (List.mem_map_of_mem Prod.fst ha))

/-- Label cleaning does not touch the sizes. -/
theorem sum_labeled (t : ℚ) (lbl : String) (T : ℚ) (pairs : List (String × Nat)) :
    ((pairs.map (labelRow t lbl T)).map Prod.snd).sum = (pairs.map Prod.snd).sum := by
  rw [List.map_map]
  exact congrArg List.sum (List.map_congr_left (fun r _ => rfl))

/-- `sortBySize` permutes its input. -/
theorem sortBySize_perm (pairs : List (String × Nat)) :
    List.Perm (sortBySize pairs) pairs :=
  List.perm_insertionSort _ pairs

/-- The relabel/regroup/sort pipeline preserves the total of the sizes. -/
theorem pipeline_rows_sum (grouped : List (String × Nat)) (t : ℚ) (lbl : String) (T : ℚ) :
    ((sortBySize (groupbySum (grouped.map (labelRow t lbl T)))).map Prod.snd).sum
      = (grouped.map Prod.snd).sum := by
  rw [((sortBySize_perm _).map Prod.snd).sum_eq, sum_groupbySum, sum_labeled]

/-- Dividing each size by the total and summing equals the summed sizes
over the total. -/
theorem sum_map_div (l : List (String × Nat)) (T : ℚ) :
    (l.map fun r => (r.2 : ℚ) / T).sum = ((l.map Prod.snd).sum : ℚ) / T := by
  induction l with
  | nil => simp
  | cons a t ih => simp [ih, add_div]

/-- Every output group of the pipeline that does not carry the catch-all
label has its fraction of the total at or above the threshold. -/
theorem pipeline_rows_min_perc (grouped : List (String × Nat)) (t : ℚ) (lbl : String)
    (T : ℚ) (hT : 0 < T) :
    ∀ r ∈ sortBySize (groupbySum (grouped.map (labelRow t lbl T))), r.1 ≠ lbl →
      t ≤ (r.2 : ℚ) / T := by
  intro r hr hneq
  have hr1 : r ∈ groupbySum (grouped.map (labelRow t lbl T)) :=
    (sortBySize_perm _).mem_iff.mp hr
  rw [groupbySum] at hr1
  rcases List.mem_map.mp hr1 with ⟨k, hkmem, hkr⟩
  have hr_fst : r.1 = k := by rw [← hkr]
  have hr_snd : r.2 =
      (((grouped.map (labelRow t lbl T)).filter fun p => p.1 == k).map Prod.snd).sum := by
    rw [← hkr]
  have hk_lbl : k ∈ (grouped.map (labelRow t lbl T)).map Prod.fst :=
    mem_sortKeys_dedup.mp hkmem
  rcases List.mem_map.mp hk_lbl with ⟨q, hq, hqk⟩
  rcases List.mem_map.mp hq with ⟨p, hp, hpq⟩
  have hkneq : k ≠ lbl := hr_fst ▸ hneq
  have hcond : ¬((p.2 : ℚ) / T < t) := by
    intro hlt
    apply hkneq
    rw [← hqk, ← hpq]
    simp [labelRow, hlt]
  have hq2 : q.2 = p.2 := by rw [← hpq]; simp [labelRow]
  have hqfib : q ∈ (grouped.map (labelRow t lbl T)).filter (fun p' => p'.1 == k) :=
    List.mem_filter.mpr ⟨hq, by simp [hqk]⟩
  have hle : q.2 ≤ r.2 := by
    rw [hr_snd]
    exact List.single_le_sum (fun x _ => Nat.zero_le x) q.2
      (List.mem_map_of_mem Prod.snd hqfib)
  have h1 : t ≤ (p.2 : ℚ) / T := not_lt.mp hcond
  have h2 : (p.2 : ℚ) / T ≤ (r.2 : ℚ) / T := by
    gcongr
    exact_mod_cast hq2 ▸ hle
  exact le_trans h1 h2

/-- C5 (amended): on a table with at least one non-missing category
value the grouper renders, the output sizes add up to the number of
non-missing rows (the rows `groupby` keeps; rows with a missing
category are dropped, not counted), the fractions over that total sum
exactly to `1`, and no output group's fraction is below the threshold
except possibly the group carrying the catch-all label. -/
theorem create_pie_rendered_invariants (column : List (Option String))
    (threshold : ℚ) (grouped_label : String)
    (hne : column.filterMap id ≠ []) :
    ∃ rows, create_pie_chart_with_grouped_threshold column threshold grouped_label =
        PieResult.rendered rows ∧
      (rows.map Prod.snd).sum = (column.filterMap id).length ∧
      (rows.map fun r => (r.2 : ℚ) / ((column.filterMap id).length : ℚ)).sum = 1 ∧
      ∀ r ∈ rows, r.1 ≠ grouped_label →
        threshold ≤ (r.2 : ℚ) / ((column.filterMap id).length : ℚ) := by
  have hlen : (column.filterMap id).length ≠ 0 :=
    fun h => hne (List.length_eq_zero.mp h)
  have hemp : (groupbySize (column.filterMap id)).isEmpty = false := by
    rcases h : groupbySize (column.filterMap id) with _ | ⟨a, tl⟩
    · exact absurd ((groupbySize_eq_nil_iff _).mp h) hne
    · rfl
  have htv : ((((groupbySize (column.filterMap id)).map Prod.snd).sum : ℕ) : ℚ)
      = ((column.filterMap id).length : ℚ) := by
    rw [sum_groupbySize]
  have hrender : create_pie_chart_with_grouped_threshold column threshold grouped_label =
      PieResult.rendered (sortBySize (groupbySum ((groupbySize (column.filterMap id)).map
        (labelRow threshold grouped_label
          ((((groupbySize (column.filterMap id)).map Prod.snd).sum : ℕ) : ℚ))))) := by
    rw [create_pie_chart_with_grouped_threshold]
    simp only [hemp, Bool.false_eq_true, if_false]
  refine ⟨_, hrender, ?_, ?_, ?_⟩
  · rw [pipeline_rows_sum, sum_groupbySize]
  · rw [sum_map_div, pipeline_rows_sum, sum_groupbySize]
    exact div_self (Nat.cast_ne_zero.mpr hlen)
  · rw [htv]
    exact pipeline_rows_min_perc _ threshold grouped_label _
      (Nat.cast_pos.mpr (Nat.pos_of_ne_zero hlen))

/-- Closed instance of `create_pie_rendered_invariants` on a three-row
table with categories `A`, `A`, `B`. -/
theorem create_pie_rendered_invariants_witness :
    ∃ rows, create_pie_chart_with_grouped_threshold [some "A", some "A", some "B"]
        (1/4) "Others" = PieResult.rendered rows ∧
      (rows.map Prod.snd).sum =
        (([some "A", some "A", some "B"] : List (Option String)).filterMap id).length ∧
      (rows.map fun r => (r.2 : ℚ) /
        ((([some "A", some "A", some "B"] : List (Option String)).filterMap id).length : ℚ)).sum
        = 1 ∧
      ∀ r ∈ rows, r.1 ≠ "Others" →
        (1/4 : ℚ) ≤ (r.2 : ℚ) /
          ((([some "A", some "A", some "B"] : List (Option String)).filterMap id).length : ℚ) :=
  create_pie_rendered_invariants [some "A", some "A", some "B"] (1/4) "Others" (by decide)

/-- C5 counterexample: on the two-row table `[some A, none]` the grouper
renders the single group `A: 1`, whose sizes sum to `1`, while the input
table has `2` rows — a row with a missing category value is counted in
no output group. -/
theorem create_pie_missing_row_uncounted :
    create_pie_chart_with_grouped_threshold [some "A", none] 0.01 "Others" =
      PieResult.rendered [("A", 1)] ∧
    (([("A", 1)] : List (String × Nat)).map Prod.snd).sum ≠
      ([some "A", none] : List (Option String)).length := by
  constructor
  · have h1 : groupbySize (([some "A", none] : List (Option String)).filterMap id) =
        [("A", 1)] := by decide
    have h2 : sortBySize (groupbySum [("A", 1)]) = [("A", 1)] := by decide
    simp only [create_pie_chart_with_grouped_threshold, h1, List.isEmpty_cons,
      List.map_cons, List.map_nil, List.sum_cons, List.sum_nil, if_false]
    norm_num [labelRow]
    rw [h2]
  · decide

/-- Closed instance of `create_pie_threshold_grouping`: the rendered
groups of the concrete scenario are sorted ascending by size. -/
theorem create_pie_threshold_grouping_witness :
    List.Sorted sizeLE [("Others", 5), ("B", 45), ("A", 50)] :=
  create_pie_threshold_grouping.1 pieInput 0.05 "Others"
    [("Others", 5), ("B", 45), ("A", 50)] create_pie_threshold_grouping.2
